import Mathlib

/-!
Shallow embedding of `src/merge.py` (hybrid_search annotation merge script).

Python cell values are modelled by `PyVal`.  The missing marker (`None` /
`NaN`, both detected by `pd.isna`) is the constructor `noneV`.  Float
values carry the literal text they were parsed from (their exact IEEE
semantics is out of the modelled space and no claim depends on it).
Literal shapes outside the data's value space (hex/binary/underscore
numerals, complex numbers, bytes and raw strings, Ellipsis) are not
modelled; the repository's cells hold entity lists such as "['Alice']",
plain strings and missing markers.
-/

inductive PyVal : Type where
  | noneV : PyVal
  | str : String → PyVal
  | int : Int → PyVal
  | bool : Bool → PyVal
  | floatV : String → PyVal
  | list : List PyVal → PyVal
  | tuple : List PyVal → PyVal
  | dictV : List (PyVal × PyVal) → PyVal
  | setV : List PyVal → PyVal

/-- Scalar missing test: `pd.isna` on a single (non-array) value, true
exactly on the missing marker (`None` / `NaN`). -/
def isnaScalar : PyVal → Bool
  | .noneV => true
  | _ => false

/-- Test for a native Python list. -/
def isList : PyVal → Bool
  | .list _ => true
  | _ => false

/-- Model of the boolean use `bool(pd.isna(value))` as it occurs in the
guards `if pd.isna(value) or ...`: on a non-list value `pd.isna` returns
a plain bool; on a native list it returns a NumPy boolean array, whose
truth test raises `ValueError` ("truth value of an array ... is
ambiguous") unless the array has exactly one element, in which case the
test is that element's missing-test.  Elements of one-element lists are
tested as scalars (the repository's cell lists are flat; NumPy's
dimensional lifting of deeper nestings is outside the modelled space). -/
def isnaTruth : PyVal → Except String Bool
  | .list [x] => .ok (isnaScalar x)
  | .list _ => .error "ValueError"
  | v => .ok (isnaScalar v)

/- Model of Python `==` between cell values.  The source compares values
only against the string literals `''`, `'---'`, `'neutral'`; those
comparisons (and the same-type scalar cases) are modelled precisely,
every other cross-type comparison is `false` as in Python. -/
mutual
def pyEq : PyVal → PyVal → Bool
  | .noneV, .noneV => true
  | .str a, .str b => a == b
  | .int a, .int b => a == b
  | .bool a, .bool b => a == b
  | .int a, .bool b => a == (cond b 1 0)
  | .bool a, .int b => (cond a 1 0 : Int) == b
  | .list a, .list b => pyEqList a b
  | _, _ => false
def pyEqList : List PyVal → List PyVal → Bool
  | [], [] => true
  | a :: as, b :: bs => pyEq a b && pyEqList as bs
  | _, _ => false
end

/-- Escape one character of a `repr` string body, Python style: the
chosen quote and backslashes are escaped, as are newline, carriage
return and tab. -/
def pyReprChar (q : Char) (c : Char) : List Char :=
  if c = q ∨ c = '\\' then ['\\', c]
  else if c = '\n' then ['\\', 'n']
  else if c = '\r' then ['\\', 'r']
  else if c = '\t' then ['\\', 't']
  else [c]

/-- Model of Python `repr` on a string: single quotes by default, double
quotes when the string contains a single quote but no double quote, body
escaped by `pyReprChar`. -/
def pyReprStr (s : String) : String :=
  let q := if s.toList.contains '\'' && !(s.toList.contains '"') then '"' else '\''
  String.mk (q :: s.toList.flatMap (pyReprChar q) ++ [q])

/- Model of Python `repr` on a cell value.  Float values render as their
literal text (exact for canonical literals such as "1.5"); set rendering
uses the literal's element order. -/
mutual
def pyRepr : PyVal → String
  | .noneV => "None"
  | .str s => pyReprStr s
  | .int n => toString n
  | .bool b => cond b "True" "False"
  | .floatV t => t
  | .list xs => "[" ++ pyReprList xs ++ "]"
  | .tuple [x] => "(" ++ pyRepr x ++ ",)"
  | .tuple xs => "(" ++ pyReprList xs ++ ")"
  | .dictV kvs => "\x7b" ++ pyReprPairs kvs ++ "\x7d"
  | .setV xs => "\x7b" ++ pyReprList xs ++ "\x7d"
def pyReprList : List PyVal → String
  | [] => ""
  | [x] => pyRepr x
  | x :: y :: xs => pyRepr x ++ ", " ++ pyReprList (y :: xs)
def pyReprPairs : List (PyVal × PyVal) → String
  | [] => ""
  | [(k, v)] => pyRepr k ++ ": " ++ pyRepr v
  | (k, v) :: p :: ps => pyRepr k ++ ": " ++ pyRepr v ++ ", " ++ pyReprPairs (p :: ps)
end

/-- Model of Python `str` on a cell value. -/
def pyStr : PyVal → String
  | .str s => s
  | v => pyRepr v

/-- Python whitespace test used by `str.strip` (the `str.isspace` set):
ASCII whitespace including \x0b and \x0c, the C1 controls \x1c-\x1f and
\x85, NBSP, and the Unicode space separators. -/
def isSpaceChar (c : Char) : Bool :=
  ([9, 10, 11, 12, 13, 28, 29, 30, 31, 32, 133, 160, 5760,
    8192, 8193, 8194, 8195, 8196, 8197, 8198, 8199, 8200, 8201, 8202,
    8232, 8233, 8239, 8287, 12288] : List Nat).contains c.toNat

/-- Model of Python `str.strip()` on the character list: drop whitespace
from the front, then from the back. -/
def pyStrip (cs : List Char) : List Char :=
  (((cs.dropWhile isSpaceChar).reverse).dropWhile isSpaceChar).reverse

/-- String-level form of `str.strip()`. -/
def pyStripS (s : String) : String := String.mk (pyStrip s.toList)

/-- Model of Python `str.split(',')` on the character list. -/
def pySplitComma : List Char → List (List Char)
  | [] => [[]]
  | c :: rest =>
    if c = ',' then [] :: pySplitComma rest
    else
      match pySplitComma rest with
      | [] => [[c]]
      | p :: ps => (c :: p) :: ps

/-- String-level form of `str.split(',')`. -/
def pySplitCommaS (s : String) : List String :=
  (pySplitComma s.toList).map (fun cs => String.mk cs)

/-- Model of Python `sep.join(l)`. -/
def pyJoin (sep : String) : List String → String
  | [] => ""
  | [x] => x
  | x :: y :: xs => x ++ sep ++ pyJoin sep (y :: xs)

/-! ## Model of `ast.literal_eval`

A recursive-descent parser for the Python literal shapes of the modelled
value space: (nested) list, tuple, dict and set displays, single- or
double-quoted strings with backslash escapes, signed decimal integers
and floats (with optional exponent), `None`, `True`, `False`.  Failure
(the exceptions `ast.literal_eval` raises) is the `.error` result. -/

/-- Whitespace the expression tokenizer skips between tokens. -/
def parserSpace (c : Char) : Bool :=
  c = ' ' || c = '\t' || c = '\n' || c = '\r' || c = '\x0c'

def skipSpaces : List Char → List Char
  | [] => []
  | c :: r => if parserSpace c then skipSpaces r else c :: r

/-- Value of one backslash escape in a string literal; unknown escapes
keep the backslash, as in Python. -/
def escChar (c : Char) : List Char :=
  if c = 'n' then ['\n']
  else if c = 't' then ['\t']
  else if c = 'r' then ['\r']
  else if c = '\\' then ['\\']
  else if c = '\'' then ['\'']
  else if c = '"' then ['"']
  else if c = 'a' then ['\x07']
  else if c = 'b' then ['\x08']
  else if c = 'f' then ['\x0c']
  else if c = 'v' then ['\x0b']
  else if c = '0' then ['\x00']
  else ['\\', c]

/-- Scan a quoted string body up to the closing quote `q`; a backslash
escapes the following character (so a quote preceded by a backslash does
not close the literal, and a trailing backslash fails). -/
def scanStr (q : Char) : List Char → Option (List Char × List Char)
  | [] => none
  | '\\' :: [] => none
  | '\\' :: e :: r =>
    (match scanStr q r with
     | some (s, r2) => some (escChar e ++ s, r2)
     | none => none)
  | c :: r =>
    if c = q then some ([], r)
    else
      match scanStr q r with
      | some (s, r2) => some (c :: s, r2)
      | none => none

def digitsToNat (ds : List Char) : Nat :=
  ds.foldl (fun n c => n * 10 + (c.toNat - 48)) 0

/-- Exponent part of a float literal: `e`/`E`, optional sign, digits;
returns the consumed characters. -/
def parseExpPart (cs : List Char) : Option (List Char × List Char) :=
  match cs with
  | e :: rest =>
    if e = 'e' || e = 'E' then
      match rest with
      | s :: r2 =>
        if s = '+' || s = '-' then
          (match r2.span Char.isDigit with
           | ([], _) => none
           | (ds, r3) => some (e :: s :: ds, r3))
        else
          (match rest.span Char.isDigit with
           | ([], _) => none
           | (ds, r3) => some (e :: ds, r3))
      | [] => none
    else none
  | [] => none

/-- Decimal number literal starting at `cs` (after an optional sign that
is passed in as `sign`): digits, optional fraction, optional exponent.
A fraction or exponent makes it a float carrying its literal text. -/
def parseNumber (sign : List Char) (cs : List Char) : Option (PyVal × List Char) :=
  match cs.span Char.isDigit with
  | (ip, r1) =>
    match r1 with
    | '.' :: r2 =>
      (match r2.span Char.isDigit with
       | (fp, r3) =>
         if ip.isEmpty && fp.isEmpty then none
         else
           match parseExpPart r3 with
           | some (ep, r4) => some (.floatV (String.mk (sign ++ ip ++ '.' :: (fp ++ ep))), r4)
           | none => some (.floatV (String.mk (sign ++ ip ++ '.' :: fp)), r3))
    | _ =>
      if ip.isEmpty then none
      else
        match parseExpPart r1 with
        | some (ep, r2) => some (.floatV (String.mk (sign ++ ip ++ ep)), r2)
        | none =>
          some (.int (if sign = ['-'] then -(digitsToNat ip : Int) else (digitsToNat ip : Int)), r1)

mutual
def parseVal : Nat → List Char → Option (PyVal × List Char)
  | 0, _ => none
  | fuel + 1, cs =>
    match skipSpaces cs with
    | [] => none
    | '[' :: rest =>
      (match skipSpaces rest with
       | ']' :: r2 => some (.list [], r2)
       | _ =>
         match parseItems fuel rest with
         | some (xs, r2) =>
           (match skipSpaces r2 with
            | ']' :: r3 => some (.list xs, r3)
            | _ => none)
         | none => none)
    | '(' :: rest =>
      (match skipSpaces rest with
       | ')' :: r2 => some (.tuple [], r2)
       | _ =>
         match parseVal fuel rest with
         | none => none
         | some (v, r2) =>
           match skipSpaces r2 with
           | ')' :: r3 => some (v, r3)
           | ',' :: r3 =>
             (match skipSpaces r3 with
              | ')' :: r4 => some (.tuple [v], r4)
              | _ =>
                match parseItems fuel r3 with
                | some (vs, r4) =>
                  (match skipSpaces r4 with
                   | ')' :: r5 => some (.tuple (v :: vs), r5)
                   | _ => none)
                | none => none)
           | _ => none)
    | '\x7b' :: rest =>
      (match skipSpaces rest with
       | '\x7d' :: r2 => some (.dictV [], r2)
       | _ =>
         match parseVal fuel rest with
         | none => none
         | some (k, r2) =>
           match skipSpaces r2 with
           | ':' :: r3 =>
             (match parseVal fuel r3 with
              | none => none
              | some (v1, r4) =>
                match skipSpaces r4 with
                | '\x7d' :: r5 => some (.dictV [(k, v1)], r5)
                | ',' :: r5 =>
                  (match skipSpaces r5 with
                   | '\x7d' :: r6 => some (.dictV [(k, v1)], r6)
                   | _ =>
                     match parsePairs fuel r5 with
                     | some (ps, r6) =>
                       (match skipSpaces r6 with
                        | '\x7d' :: r7 => some (.dictV ((k, v1) :: ps), r7)
                        | _ => none)
                     | none => none)
                | _ => none)
           | '\x7d' :: r3 => some (.setV [k], r3)
           | ',' :: r3 =>
             (match skipSpaces r3 with
              | '\x7d' :: r4 => some (.setV [k], r4)
              | _ =>
                match parseItems fuel r3 with
                | some (vs, r4) =>
                  (match skipSpaces r4 with
                   | '\x7d' :: r5 => some (.setV (k :: vs), r5)
                   | _ => none)
                | none => none)
           | _ => none)
    | '\'' :: rest =>
      (match scanStr '\'' rest with
       | some (s, r2) => some (.str (String.mk s), r2)
       | none => none)
    | '"' :: rest =>
      (match scanStr '"' rest with
       | some (s, r2) => some (.str (String.mk s), r2)
       | none => none)
    | '-' :: rest => parseNumber ['-'] (skipSpaces rest)
    | '+' :: rest => parseNumber [] (skipSpaces rest)
    | 'N' :: 'o' :: 'n' :: 'e' :: r2 => some (.noneV, r2)
    | 'T' :: 'r' :: 'u' :: 'e' :: r2 => some (.bool true, r2)
    | 'F' :: 'a' :: 'l' :: 's' :: 'e' :: r2 => some (.bool false, r2)
    | c :: rest =>
      if c.isDigit || c = '.' then parseNumber [] (c :: rest)
      else none
def parseItems : Nat → List Char → Option (List PyVal × List Char)
  | 0, _ => none
  | fuel + 1, cs =>
    match parseVal fuel cs with
    | none => none
    | some (v, r) =>
      match skipSpaces r with
      | ',' :: r2 =>
        (match skipSpaces r2 with
         | ']' :: _ => some ([v], r2)
         | ')' :: _ => some ([v], r2)
         | '\x7d' :: _ => some ([v], r2)
         | _ =>
           match parseItems fuel r2 with
           | some (vs, r3) => some (v :: vs, r3)
           | none => none)
      | _ => some ([v], r)
def parsePairs : Nat → List Char → Option (List (PyVal × PyVal) × List Char)
  | 0, _ => none
  | fuel + 1, cs =>
    match parseVal fuel cs with
    | none => none
    | some (k, r) =>
      match skipSpaces r with
      | ':' :: r2 =>
        (match parseVal fuel r2 with
         | none => none
         | some (v, r3) =>
           match skipSpaces r3 with
           | ',' :: r4 =>
             (match skipSpaces r4 with
              | '\x7d' :: _ => some ([(k, v)], r4)
              | _ =>
                match parsePairs fuel r4 with
                | some (ps, r5) => some ((k, v) :: ps, r5)
                | none => none)
           | _ => some ([(k, v)], r3))
      | _ => none
end

/-- Model of `ast.literal_eval`: parse the whole (whitespace-trimmed)
string as one literal; `.error` models the raised exception. -/
def literal_eval (s : String) : Except String PyVal :=
  match parseVal (4 * s.length + 8) s.toList with
  | some (v, rest) =>
    if (skipSpaces rest).isEmpty then .ok v else .error "SyntaxError"
  | none => .error "ValueError"

/-! ## `parse_list_column` (src/merge.py lines 5-21)

The `Except` result makes exceptions explicit.  Two exception sources
exist in the source: the truth test of `pd.isna(value)` in the guard,
which raises `ValueError` on native lists of length other than one and
is NOT protected by any handler, and `ast.literal_eval`, whose failure
the bare `except:` catches (the `.error` branch of the inner match). -/

def parse_list_column (value : PyVal) : Except String (List PyVal) :=
  match isnaTruth value with
  | .error e => .error e
  | .ok na =>
    if na || pyEq value (.str "") || pyEq value (.str "---") then
      .ok []
    else
      match value with
      | .list xs => .ok xs
      | .str s =>
        (match literal_eval s with
         | .ok (.list xs) => .ok xs
         | .ok parsed => .ok [parsed]
         | .error _ => .ok (if pyStripS s ≠ "" then [.str s] else []))
      | _ => .ok []

/-- The list produced by `parse_list_column` when it does not raise. -/
def normItems (v : PyVal) : List PyVal :=
  match parse_list_column v with
  | .ok l => l
  | .error _ => []

/-- Trimmed-string identity of an item: `str(item).strip()`. -/
def itemKey (x : PyVal) : String := pyStripS (pyStr x)

/-! ## `merge_list_columns` (src/merge.py lines 23-43) -/

/-- One `for item in parse_list_column(...)` loop of `merge_list_columns`:
append unseen items with non-empty trimmed identity, recording the
identity in `seen`. -/
def mergeLoop : List PyVal → List PyVal → List String → List PyVal × List String
  | [], result, seen => (result, seen)
  | item :: rest, result, seen =>
    if itemKey item ≠ "" ∧ itemKey item ∉ seen then
      mergeLoop rest (result ++ [item]) (itemKey item :: seen)
    else
      mergeLoop rest result seen

/-- The `for val in other_vals` loop of `merge_list_columns`. -/
def mergeOthers : List PyVal → List PyVal → List String → Except String (List PyVal × List String)
  | [], result, seen => .ok (result, seen)
  | v :: vs, result, seen =>
    match parse_list_column v with
    | .error e => .error e
    | .ok items =>
      let rs := mergeLoop items result seen
      mergeOthers vs rs.1 rs.2

def merge_list_columns (main_val : PyVal) (other_vals : List PyVal) : Except String (List PyVal) :=
  match parse_list_column main_val with
  | .error e => .error e
  | .ok items =>
    let rs := mergeLoop items [] []
    match mergeOthers other_vals rs.1 rs.2 with
    | .error e => .error e
    | .ok (result, _) => .ok (if result.isEmpty then [] else result)

/-- The list produced by `merge_list_columns` (which, as proved below,
never raises). -/
def mergeListVal (main_val : PyVal) (other_vals : List PyVal) : List PyVal :=
  match merge_list_columns main_val other_vals with
  | .ok l => l
  | .error _ => []

/-- All normalized items scanned by `merge_list_columns`, in scan order:
the primary value's items, then each secondary value's items. -/
def allItems (main_val : PyVal) (other_vals : List PyVal) : List PyVal :=
  normItems main_val ++ other_vals.flatMap normItems

/-! ## `merge_sentiment_columns` (src/merge.py lines 45-61) -/

/-- The `for item in items` loop of `merge_sentiment_columns`. -/
def sentLoop : List String → List String → List String → List String × List String
  | [], result, seen => (result, seen)
  | item :: rest, result, seen =>
    if item ≠ "" ∧ item ≠ "neutral" ∧ item ∉ seen then
      sentLoop rest (result ++ [item]) (item :: seen)
    else
      sentLoop rest result seen

/-- Skip test of `merge_sentiment_columns`:
`pd.isna(val) or val == '' or val == 'neutral'`. -/
def sentSkip (v : PyVal) : Bool :=
  isnaScalar v || pyEq v (.str "") || pyEq v (.str "neutral")

/-- The split-and-trim of a contributing value:
`[item.strip() for item in str(val).split(',')]`. -/
def sentPieces (v : PyVal) : List String :=
  (pySplitCommaS (pyStr v)).map pyStripS

/-- The `for val in all_vals` loop of `merge_sentiment_columns`. -/
def sentOuter : List PyVal → List String → List String → List String × List String
  | [], result, seen => (result, seen)
  | v :: vs, result, seen =>
    if sentSkip v then
      sentOuter vs result seen
    else
      let rs := sentLoop (sentPieces v) result seen
      sentOuter vs rs.1 rs.2

def merge_sentiment_columns (main_val : PyVal) (other_vals : List PyVal) : String :=
  let rs := sentOuter (main_val :: other_vals) [] []
  if rs.1.isEmpty then "" else pyJoin ", " rs.1

/-! ## Row orchestration (src/merge.py lines 69-111)

A row is a mapping from column name to cell value; `none` is the
"column not present" outcome.  `rget` models `Series.get` (absent column
gives `None`), `rset` models `df.at[idx, col] = v`. -/

def Row : Type := String → Option PyVal

def rget (r : Row) (c : String) : PyVal := (r c).getD .noneV

def rset (r : Row) (c : String) (v : PyVal) : Row :=
  fun c2 => if c2 = c then some v else r c2

/-- Gather `[row.get(c1), row.get(c2)]` from an enrichment row that may be
absent (row index beyond the enrichment table's length). -/
def gatherPair (row : Option Row) (c1 c2 : String) : List PyVal :=
  match row with
  | some r => [rget r c1, rget r c2]
  | none => []

/-- Gather the values of the named columns that are present in the row
(`if col in sheet_row: cols.append(sheet_row.get(col))`). -/
def gatherPresent (row : Option Row) (cols : List String) : List PyVal :=
  match row with
  | some r => (cols.filter (fun c => (r c).isSome)).map (rget r)
  | none => []

/-- The body of the orchestration loop for one row index: the four fields
are replaced in sequence, exactly as the four `output_df.at[idx, ...] = `
statements of the source. -/
def processRow (row0 : Row) (s1 s2 : Option Row) : Row :=
  let row1 := rset row0 "people"
    (.list (mergeListVal (rget row0 "people")
      (gatherPair s1 "people" "people_02" ++ gatherPair s2 "people" "people_02")))
  let row2 := rset row1 "places"
    (.list (mergeListVal (rget row1 "places")
      (gatherPair s1 "places" "places_02" ++ gatherPair s2 "places" "places_02")))
  let row3 := rset row2 "sentiments"
    (.str (merge_sentiment_columns (rget row2 "sentiments")
      (gatherPair s1 "Sentiments" "Sentiments_02" ++ gatherPair s2 "Sentiments" "Sentiments_02")))
  let row4 := rset row3 "objects"
    (.list (mergeListVal (rget row3 "objects")
      (gatherPresent s1 ["original_objects", "objects", "objects_02", "objects_03", "objects_04", "objects_05"] ++
       gatherPresent s2 ["objects", "objects_02", "objects_03", "objects_04", "objects_05"])))
  row4

/-- The `for idx in range(len(output_df))` loop, carrying the row index:
`sheet_df.iloc[idx] if idx < len(sheet_df) else None` is `get? idx`. -/
def runMergeGo : List Row → List Row → List Row → Nat → List Row
  | [], _, _, _ => []
  | r :: rest, s1, s2, idx =>
    processRow r s1[idx]? s2[idx]? :: runMergeGo rest s1 s2 (idx + 1)

/-- The whole orchestration: primary table in, merged table out. -/
def runMerge (main_df s1 s2 : List Row) : List Row :=
  runMergeGo main_df s1 s2 0

/-! ## Basic lemmas about `parse_list_column` -/

/-- On every value that is not a native list the guard's `pd.isna` truth
test is a plain bool, so `parse_list_column` cannot produce an `.error`:
the bare `except:` catches every exception `ast.literal_eval` can raise. -/
lemma parse_list_column_ne_error_of_nonlist (v : PyVal) (h : isList v = false)
    (e : String) : parse_list_column v ≠ .error e := by
  unfold parse_list_column
  cases v with
  | list xs => simp [isList] at h
  | noneV => simp [isnaTruth, isnaScalar]
  | int n => simp [isnaTruth, isnaScalar, pyEq]
  | bool b => simp [isnaTruth, isnaScalar, pyEq]
  | floatV t => simp [isnaTruth, isnaScalar, pyEq]
  | tuple xs => simp [isnaTruth, isnaScalar, pyEq]
  | dictV kvs => simp [isnaTruth, isnaScalar, pyEq]
  | setV xs => simp [isnaTruth, isnaScalar, pyEq]
  | str s0 =>
    simp only [isnaTruth, isnaScalar]
    split
    · simp
    · cases h2 : literal_eval s0 with
      | ok p => cases p <;> simp [h2]
      | error e2 => simp [h2]

lemma parse_list_column_eq_ok_of_nonlist (v : PyVal) (h : isList v = false) :
    parse_list_column v = .ok (normItems v) := by
  unfold normItems
  cases h2 : parse_list_column v with
  | ok l => rfl
  | error e => exact absurd h2 (parse_list_column_ne_error_of_nonlist v h e)

/-! ## Characterization of the list-merge loops -/

/-- Functional form of the items kept by one pass of the merge loop. -/
def dedupV : List String → List PyVal → List PyVal
  | _, [] => []
  | seen, x :: xs =>
    if itemKey x ≠ "" ∧ itemKey x ∉ seen then x :: dedupV (itemKey x :: seen) xs
    else dedupV seen xs

/-- Functional form of the `seen` set after one pass of the merge loop. -/
def seenV : List String → List PyVal → List String
  | seen, [] => seen
  | seen, x :: xs =>
    if itemKey x ≠ "" ∧ itemKey x ∉ seen then seenV (itemKey x :: seen) xs
    else seenV seen xs

lemma mergeLoop_eq (items : List PyVal) :
    ∀ result seen,
      mergeLoop items result seen = (result ++ dedupV seen items, seenV seen items) := by
  induction items with
  | nil => intro result seen; simp [mergeLoop, dedupV, seenV]
  | cons x xs ih =>
    intro result seen
    by_cases h : itemKey x ≠ "" ∧ itemKey x ∉ seen
    · simp [mergeLoop, dedupV, seenV, h, ih]
    · simp [mergeLoop, dedupV, seenV, h, ih]

lemma dedupV_append (a b : List PyVal) :
    ∀ seen, dedupV seen (a ++ b) = dedupV seen a ++ dedupV (seenV seen a) b := by
  induction a with
  | nil => intro seen; simp [dedupV, seenV]
  | cons x xs ih =>
    intro seen
    by_cases h : itemKey x ≠ "" ∧ itemKey x ∉ seen
    · simp [dedupV, seenV, h, ih]
    · simp [dedupV, seenV, h, ih]

lemma seenV_append (a b : List PyVal) :
    ∀ seen, seenV seen (a ++ b) = seenV (seenV seen a) b := by
  induction a with
  | nil => intro seen; simp [seenV]
  | cons x xs ih =>
    intro seen
    by_cases h : itemKey x ≠ "" ∧ itemKey x ∉ seen
    · simp [seenV, h, ih]
    · simp [seenV, h, ih]

lemma mergeOthers_eq (others : List PyVal) :
    ∀ result seen, (∀ v ∈ others, isList v = false) →
      mergeOthers others result seen =
        .ok (result ++ dedupV seen (others.flatMap normItems),
             seenV seen (others.flatMap normItems)) := by
  induction others with
  | nil => intro result seen _; simp [mergeOthers, dedupV, seenV]
  | cons v vs ih =>
    intro result seen h
    have hv := h v (List.mem_cons_self _ _)
    have hvs : ∀ u ∈ vs, isList u = false := fun u hu => h u (List.mem_cons_of_mem _ hu)
    simp only [mergeOthers, parse_list_column_eq_ok_of_nonlist v hv, mergeLoop_eq,
      ih _ _ hvs, List.flatMap_cons, dedupV_append, seenV_append, List.append_assoc]

/-- The merged list never being empty-checked away: `result if result
else []` is the identity. -/
lemma isEmpty_branch (l : List PyVal) : (if l.isEmpty then ([] : List PyVal) else l) = l := by
  cases l <;> simp

/-- Closed form of `merge_list_columns` for inputs on which the guard's
`pd.isna` truth test cannot raise (no native-list value): one
deduplicating pass over all normalized items, primary first. -/
lemma merge_list_columns_eq (main_val : PyVal) (other_vals : List PyVal)
    (hm : isList main_val = false) (ho : ∀ v ∈ other_vals, isList v = false) :
    merge_list_columns main_val other_vals =
      .ok (dedupV [] (allItems main_val other_vals)) := by
  unfold merge_list_columns
  rw [parse_list_column_eq_ok_of_nonlist main_val hm]
  simp only [mergeLoop_eq, List.nil_append, mergeOthers_eq other_vals _ _ ho]
  rw [isEmpty_branch]
  unfold allItems
  rw [dedupV_append]

lemma mergeListVal_eq (main_val : PyVal) (other_vals : List PyVal)
    (hm : isList main_val = false) (ho : ∀ v ∈ other_vals, isList v = false) :
    mergeListVal main_val other_vals = dedupV [] (allItems main_val other_vals) := by
  unfold mergeListVal
  rw [merge_list_columns_eq main_val other_vals hm ho]

lemma dedupV_mem_key (items : List PyVal) :
    ∀ seen, ∀ x ∈ dedupV seen items, itemKey x ≠ "" := by
  induction items with
  | nil => intro seen x hx; simp [dedupV] at hx
  | cons y ys ih =>
    intro seen x hx
    by_cases h : itemKey y ≠ "" ∧ itemKey y ∉ seen
    · rw [dedupV, if_pos h] at hx
      rcases List.mem_cons.mp hx with rfl | hx2
      · exact h.1
      · exact ih _ x hx2
    · rw [dedupV, if_neg h] at hx
      exact ih seen x hx

lemma dedupV_filter (i : String) (hi : i ≠ "") (items : List PyVal) :
    ∀ seen, (dedupV seen items).filter (fun x => itemKey x == i) =
      if i ∈ seen then [] else (items.find? (fun x => itemKey x == i)).toList := by
  induction items with
  | nil => intro seen; by_cases h : i ∈ seen <;> simp [dedupV, h]
  | cons y ys ih =>
    intro seen
    by_cases hk : itemKey y = i
    · by_cases hmem : i ∈ seen
      · have hguard : ¬(itemKey y ≠ "" ∧ itemKey y ∉ seen) := by
          rw [hk]; intro hc; exact hc.2 hmem
        rw [dedupV, if_neg hguard, ih seen, if_pos hmem, if_pos hmem]
      · have hguard : itemKey y ≠ "" ∧ itemKey y ∉ seen := by
          rw [hk]; exact ⟨hi, hmem⟩
        rw [dedupV, if_pos hguard, List.filter_cons, if_pos (by simp [hk]),
          ih (itemKey y :: seen), if_pos (by rw [hk]; exact List.mem_cons_self _ _),
          if_neg hmem, List.find?_cons_of_pos _ (by simp [hk])]
        rfl
    · have hfind : (y :: ys).find? (fun x => itemKey x == i) =
          ys.find? (fun x => itemKey x == i) :=
        List.find?_cons_of_neg _ (by simp [hk])
      by_cases hguard : itemKey y ≠ "" ∧ itemKey y ∉ seen
      · rw [dedupV, if_pos hguard, List.filter_cons, if_neg (by simp [hk]),
          ih (itemKey y :: seen), hfind]
        have : (i ∈ itemKey y :: seen) ↔ i ∈ seen := by
          rw [List.mem_cons]
          constructor
          · rintro (he | hs)
            · exact absurd he.symm hk
            · exact hs
          · exact Or.inr
        by_cases hmem : i ∈ seen
        · rw [if_pos (this.mpr hmem), if_pos hmem]
        · rw [if_neg (fun hc => hmem (this.mp hc)), if_neg hmem]
      · rw [dedupV, if_neg hguard, ih seen, hfind]

lemma dedupV_id (items : List PyVal) :
    ∀ seen, (∀ x ∈ items, itemKey x ≠ "" ∧ itemKey x ∉ seen) →
      (items.map itemKey).Nodup → dedupV seen items = items := by
  induction items with
  | nil => intro seen _ _; rfl
  | cons y ys ih =>
    intro seen h hnd
    have hguard := h y (List.mem_cons_self _ _)
    rw [dedupV, if_pos hguard]
    rw [List.map_cons, List.nodup_cons] at hnd
    congr 1
    apply ih
    · intro x hx
      refine ⟨(h x (List.mem_cons_of_mem _ hx)).1, ?_⟩
      intro hmem
      rcases List.mem_cons.mp hmem with heq | hseen
      · exact hnd.1 (heq ▸ List.mem_map_of_mem itemKey hx)
      · exact (h x (List.mem_cons_of_mem _ hx)).2 hseen
    · exact hnd.2

/-! ## Claims about `parse_list_column` and `merge_list_columns` -/

/-- Claim C1 (code bug): contrary to the spec's "no exception escapes
this function under any input", the guard's `bool(pd.isna(value))`
raises `ValueError` on a native two-element list before any handler, so
`parse_list_column(['a', 'b'])` raises. -/
theorem parse_list_column_list_raises :
    parse_list_column (.list [.str "a", .str "b"]) = .error "ValueError" := rfl

/-- Claim C2 (code bug): normalization is not idempotent.  The string
"[None]" normalizes to the list `[None]`, but normalizing that list
again yields `[]` (the guard's `pd.isna([None])` is element-truthy), and
re-normalizing any two-element result raises `ValueError`. -/
theorem parse_idempotence_fails :
    parse_list_column (.str "[None]") = .ok [.noneV] ∧
    parse_list_column (.list [.noneV]) = .ok [] ∧
    ([] : List PyVal) ≠ [.noneV] ∧
    parse_list_column (.list [.str "a", .str "b"]) = .error "ValueError" :=
  ⟨rfl, rfl, by simp, rfl⟩

/-- Claim C7 (code bug): a native list is not always returned as-is.
The one-element list `[None]` is swallowed to `[]` by the element-truthy
`pd.isna` guard, and the two-element list `['a', 'b']` makes the guard
raise `ValueError`. -/
theorem parse_native_list_not_returned :
    parse_list_column (.list [.noneV]) = .ok [] ∧
    ([] : List PyVal) ≠ [.noneV] ∧
    parse_list_column (.list [.str "a", .str "b"]) = .error "ValueError" :=
  ⟨rfl, by simp, rfl⟩

/-- Claim C8: `merge_list_columns` on a missing value, the empty string,
or the placeholder "---" as primary, with no secondary inputs, returns
the empty sequence and never signals an error. -/
theorem merge_list_empty_safety :
    merge_list_columns .noneV [] = .ok [] ∧
    merge_list_columns (.str "") [] = .ok [] ∧
    merge_list_columns (.str "---") [] = .ok [] :=
  ⟨rfl, rfl, rfl⟩

/-- Claim C4, counterexample: the claim's output does not exist for every
input — a two-element native-list primary raises `ValueError` — and for
the primary `[None]` the contributed item's non-empty identity "None" is
dropped entirely (the whole value is swallowed by the `pd.isna` guard)
instead of appearing exactly once. -/
theorem merge_list_dedup_cex :
    merge_list_columns (.list [.str "a", .str "b"]) [] = .error "ValueError" ∧
    merge_list_columns (.list [.noneV]) [] = .ok [] ∧
    itemKey PyVal.noneV = "None" ∧ ("None" : String) ≠ "" :=
  ⟨rfl, rfl, rfl, by decide⟩

/-- Claim C4 (amended): for every primary value and tuple of secondary
values none of which is a native list, the merged output drops items with
empty trimmed identity, and for every non-empty identity the output's
items with that identity are exactly the first-encountered input item
with that identity (each distinct identity exactly once, with the first
representation). -/
theorem merge_list_dedup_nonlist (main_val : PyVal) (other_vals : List PyVal)
    (hm : isList main_val = false) (ho : ∀ v ∈ other_vals, isList v = false) :
    merge_list_columns main_val other_vals = .ok (mergeListVal main_val other_vals) ∧
    (∀ x ∈ mergeListVal main_val other_vals, itemKey x ≠ "") ∧
    ∀ i, i ≠ "" →
      (mergeListVal main_val other_vals).filter (fun x => itemKey x == i) =
        ((allItems main_val other_vals).find? (fun x => itemKey x == i)).toList := by
  refine ⟨?_, ?_, ?_⟩
  · rw [merge_list_columns_eq main_val other_vals hm ho, mergeListVal_eq main_val other_vals hm ho]
  · rw [mergeListVal_eq main_val other_vals hm ho]; exact dedupV_mem_key _ _
  · intro i hi
    rw [mergeListVal_eq main_val other_vals hm ho,
      dedupV_filter i hi (allItems main_val other_vals) []]
    simp

/-- Witness for the amended C4 at a concrete input with a repeated
identity. -/
theorem merge_list_dedup_nonlist_witness :
    ("x" : String) ≠ "" ∧
    (mergeListVal (.str "['x', ' x ', 'y']") []).filter (fun x => itemKey x == "x") =
      ((allItems (.str "['x', ' x ', 'y']") []).find? (fun x => itemKey x == "x")).toList := by
  refine ⟨by decide, ?_⟩
  exact (merge_list_dedup_nonlist (.str "['x', ' x ', 'y']") [] (by decide)
    (by decide)).2.2 "x" (by decide)

/-- Claim C5, counterexample: with primary `[None]` and secondary "Bob"
the claim's expected output is the normalized primary item (identity
"None", non-empty and distinct from "Bob") followed by "Bob", but the
program drops the primary entirely and returns only ["Bob"]. -/
theorem merge_list_order_cex :
    merge_list_columns (.list [.noneV]) [.str "Bob"] = .ok [.str "Bob"] ∧
    itemKey PyVal.noneV = "None" ∧ itemKey (PyVal.str "Bob") = "Bob" ∧
    ("None" : String) ≠ "Bob" ∧
    ([.str "Bob"] : List PyVal) ≠ [.noneV, .str "Bob"] :=
  ⟨rfl, rfl, rfl, by decide, by simp⟩

/-- Claim C5 (amended): when neither primary nor secondary is a native
list and all normalized items (primary then secondary) have pairwise
distinct non-empty trimmed identities, the merged output is the primary
items followed by the secondary items in their original order. -/
theorem merge_list_order_nonlist (primary secondary : PyVal)
    (hp : isList primary = false) (hs : isList secondary = false)
    (hkeys : ((normItems primary ++ normItems secondary).map itemKey).Nodup)
    (hne : ∀ x ∈ normItems primary ++ normItems secondary, itemKey x ≠ "") :
    merge_list_columns primary [secondary] =
      .ok (normItems primary ++ normItems secondary) := by
  have hall : allItems primary [secondary] = normItems primary ++ normItems secondary := by
    simp [allItems]
  have ho : ∀ v ∈ [secondary], isList v = false := by
    intro v hv
    rw [List.mem_singleton.mp hv]
    exact hs
  rw [merge_list_columns_eq primary [secondary] hp ho, hall,
    dedupV_id (normItems primary ++ normItems secondary) []
      (fun x hx => ⟨hne x hx, List.not_mem_nil _⟩) hkeys]

/-- Witness for the amended C5: the spec's scenario, primary "['Alice']"
and secondary "Bob". -/
theorem merge_list_order_nonlist_witness :
    merge_list_columns (.str "['Alice']") [.str "Bob"] = .ok [.str "Alice", .str "Bob"] :=
  merge_list_order_nonlist (.str "['Alice']") (.str "Bob") (by decide) (by decide)
    (by decide) (by decide)

/-! ## Characterization of the sentiment-merge loops -/

/-- Functional form of the pieces kept by the sentiment loop. -/
def dedupF : List String → List String → List String
  | _, [] => []
  | seen, x :: xs =>
    if x ≠ "" ∧ x ≠ "neutral" ∧ x ∉ seen then x :: dedupF (x :: seen) xs
    else dedupF seen xs

/-- Functional form of the `seen` set after the sentiment loop. -/
def seenF : List String → List String → List String
  | seen, [] => seen
  | seen, x :: xs =>
    if x ≠ "" ∧ x ≠ "neutral" ∧ x ∉ seen then seenF (x :: seen) xs
    else seenF seen xs

lemma sentLoop_eq (items : List String) :
    ∀ result seen,
      sentLoop items result seen = (result ++ dedupF seen items, seenF seen items) := by
  induction items with
  | nil => intro result seen; simp [sentLoop, dedupF, seenF]
  | cons x xs ih =>
    intro result seen
    by_cases h : x ≠ "" ∧ x ≠ "neutral" ∧ x ∉ seen
    · simp [sentLoop, dedupF, seenF, h, ih]
    · simp [sentLoop, dedupF, seenF, h, ih]

lemma dedupF_append (a b : List String) :
    ∀ seen, dedupF seen (a ++ b) = dedupF seen a ++ dedupF (seenF seen a) b := by
  induction a with
  | nil => intro seen; simp [dedupF, seenF]
  | cons x xs ih =>
    intro seen
    by_cases h : x ≠ "" ∧ x ≠ "neutral" ∧ x ∉ seen
    · simp [dedupF, seenF, h, ih]
    · simp [dedupF, seenF, h, ih]

lemma seenF_append (a b : List String) :
    ∀ seen, seenF seen (a ++ b) = seenF (seenF seen a) b := by
  induction a with
  | nil => intro seen; simp [seenF]
  | cons x xs ih =>
    intro seen
    by_cases h : x ≠ "" ∧ x ≠ "neutral" ∧ x ∉ seen
    · simp [seenF, h, ih]
    · simp [seenF, h, ih]

/-- All pieces scanned by `merge_sentiment_columns`, in scan order:
skipped values contribute nothing, the rest are split on commas and each
piece trimmed. -/
def piecesOf (vals : List PyVal) : List String :=
  (vals.filter (fun v => !sentSkip v)).flatMap sentPieces

lemma sentOuter_eq (vals : List PyVal) :
    ∀ result seen,
      sentOuter vals result seen =
        (result ++ dedupF seen (piecesOf vals), seenF seen (piecesOf vals)) := by
  induction vals with
  | nil => intro result seen; simp [sentOuter, piecesOf, dedupF, seenF]
  | cons v vs ih =>
    intro result seen
    by_cases h : sentSkip v
    · rw [sentOuter, if_pos h, ih]
      simp [piecesOf, List.filter_cons, h]
    · rw [sentOuter, if_neg h]
      simp only [sentLoop_eq]
      rw [ih]
      simp [piecesOf, List.filter_cons, h, dedupF_append, seenF_append]

lemma join_isEmpty_branch (l : List String) :
    (if l.isEmpty then "" else pyJoin ", " l) = pyJoin ", " l := by
  cases l <;> simp [pyJoin]

/-- Closed form of `merge_sentiment_columns`: one deduplicating pass over
all scanned pieces, joined by ", ". -/
lemma merge_sentiment_columns_eq (main_val : PyVal) (other_vals : List PyVal) :
    merge_sentiment_columns main_val other_vals =
      pyJoin ", " (dedupF [] (piecesOf (main_val :: other_vals))) := by
  unfold merge_sentiment_columns
  rw [sentOuter_eq]
  simp only [List.nil_append]
  exact join_isEmpty_branch _

/-! ## Spec-side description of the sentiment merge (for claim C6) -/

/-- Piece filter of spec section 4.3: a trimmed piece is dropped if empty
or exactly "neutral". -/
def okPiece (x : String) : Bool := x != "" && x != "neutral"

/-- Plain first-occurrence deduplication by exact string identity. -/
def dedupFirst : List String → List String → List String
  | _, [] => []
  | seen, x :: xs =>
    if x ∉ seen then x :: dedupFirst (x :: seen) xs else dedupFirst seen xs

/-- Transcription of the spec's words for the sentiment merge (spec
section 4.3): skip missing/empty/"neutral" values, stringify and split
the rest on commas trimming each piece, drop empty or "neutral" pieces,
deduplicate by exact identity keeping first occurrences, join by ", ". -/
def mergeSentimentsSpec (vals : List PyVal) : String :=
  pyJoin ", "
    (dedupFirst []
      (((vals.filter (fun v => !sentSkip v)).flatMap
          (fun v => (pySplitCommaS (pyStr v)).map pyStripS)).filter okPiece))

lemma dedupF_eq_dedupFirst (items : List String) :
    ∀ seen, dedupF seen items = dedupFirst seen (items.filter okPiece) := by
  induction items with
  | nil => intro seen; simp [dedupF, List.filter_nil, dedupFirst]
  | cons x xs ih =>
    intro seen
    by_cases hok : okPiece x = true
    · have h1 : x ≠ "" ∧ x ≠ "neutral" := by
        simpa [okPiece] using hok
      rw [List.filter_cons, if_pos hok]
      by_cases hmem : x ∈ seen
      · rw [dedupF, if_neg (fun hc => hc.2.2 hmem), dedupFirst, if_neg (fun hc => hc hmem)]
        exact ih seen
      · rw [dedupF, if_pos ⟨h1.1, h1.2, hmem⟩, dedupFirst, if_pos hmem]
        rw [ih (x :: seen)]
    · have h1 : ¬(x ≠ "" ∧ x ≠ "neutral" ∧ x ∉ seen) := by
        intro hc
        exact hok (by simp [okPiece, hc.1, hc.2.1])
      rw [List.filter_cons, if_neg hok, dedupF, if_neg h1]
      exact ih seen

/-! ## Exception-explicit sentiment merge

The skip guard of `merge_sentiment_columns` contains the same
`bool(pd.isna(val))` truth test as `parse_list_column`, unprotected by
any handler, so on native-list values it can raise or skip the value.
The exception-explicit variant below makes that visible; on non-list
values it agrees with the plain `merge_sentiment_columns` above, which
is kept for the row orchestration and the idempotence claim. -/

/-- Exception-explicit skip test:
`pd.isna(val) or val == '' or val == 'neutral'`. -/
def sentSkipE (v : PyVal) : Except String Bool :=
  match isnaTruth v with
  | .error e => .error e
  | .ok na => .ok (na || pyEq v (.str "") || pyEq v (.str "neutral"))

/-- Exception-explicit `for val in all_vals` loop. -/
def sentOuterE : List PyVal → List String → List String → Except String (List String × List String)
  | [], result, seen => .ok (result, seen)
  | v :: vs, result, seen =>
    match sentSkipE v with
    | .error e => .error e
    | .ok true => sentOuterE vs result seen
    | .ok false =>
      let rs := sentLoop (sentPieces v) result seen
      sentOuterE vs rs.1 rs.2

/-- Exception-explicit `merge_sentiment_columns`. -/
def merge_sentiment_columnsE (main_val : PyVal) (other_vals : List PyVal) :
    Except String String :=
  match sentOuterE (main_val :: other_vals) [] [] with
  | .error e => .error e
  | .ok rs => .ok (if rs.1.isEmpty then "" else pyJoin ", " rs.1)

lemma sentSkipE_eq_of_nonlist (v : PyVal) (h : isList v = false) :
    sentSkipE v = .ok (sentSkip v) := by
  cases v with
  | list xs => simp [isList] at h
  | noneV => rfl
  | str s => rfl
  | int n => rfl
  | bool b => rfl
  | floatV t => rfl
  | tuple xs => rfl
  | dictV kvs => rfl
  | setV xs => rfl

lemma sentOuterE_eq (vals : List PyVal) :
    ∀ result seen, (∀ v ∈ vals, isList v = false) →
      sentOuterE vals result seen = .ok (sentOuter vals result seen) := by
  induction vals with
  | nil => intro result seen _; rfl
  | cons v vs ih =>
    intro result seen h
    have hv := h v (List.mem_cons_self _ _)
    have hvs : ∀ u ∈ vs, isList u = false := fun u hu => h u (List.mem_cons_of_mem _ hu)
    rw [sentOuterE, sentSkipE_eq_of_nonlist v hv]
    by_cases hsk : sentSkip v
    · rw [hsk, sentOuter, if_pos hsk]
      exact ih _ _ hvs
    · rw [Bool.not_eq_true] at hsk
      rw [hsk, sentOuter, if_neg (by simp [hsk])]
      exact ih _ _ hvs

lemma merge_sentiment_columnsE_eq (main_val : PyVal) (other_vals : List PyVal)
    (h : ∀ v ∈ main_val :: other_vals, isList v = false) :
    merge_sentiment_columnsE main_val other_vals =
      .ok (merge_sentiment_columns main_val other_vals) := by
  unfold merge_sentiment_columnsE merge_sentiment_columns
  rw [sentOuterE_eq _ _ _ h]

/-- Claim C6, counterexample: for the contributing value `[None]` the
spec's pipeline stringifies and splits it (yielding "[None]"), but the
program's `pd.isna([None])` guard is element-truthy, so the value is
skipped entirely and the program returns "". -/
theorem merge_sentiments_skip_list_cex :
    merge_sentiment_columnsE (.list [.noneV]) [] = .ok "" ∧
    mergeSentimentsSpec [.list [.noneV]] = "[None]" ∧
    ("" : String) ≠ "[None]" :=
  ⟨rfl, rfl, by decide⟩

/-- Claim C6 (amended): on every tuple of contributing values none of
which is a native list, `merge_sentiment_columns` raises nothing and
realizes the spec's pipeline (skip missing/empty/"neutral" values, split
on commas with trimming, drop empty or "neutral" pieces, deduplicate by
exact identity, join by ", "); in particular the two quoted examples
hold. -/
theorem merge_sentiments_spec_nonlist :
    (∀ (main_val : PyVal) (other_vals : List PyVal),
        (∀ v ∈ main_val :: other_vals, isList v = false) →
          merge_sentiment_columnsE main_val other_vals =
            .ok (mergeSentimentsSpec (main_val :: other_vals))) ∧
    merge_sentiment_columnsE (.str "neutral") [.str "neutral"] = .ok "" ∧
    merge_sentiment_columnsE (.str "happy, sad") [.str "sad, joy"] = .ok "happy, sad, joy" := by
  refine ⟨?_, rfl, rfl⟩
  intro main_val other_vals h
  rw [merge_sentiment_columnsE_eq main_val other_vals h, merge_sentiment_columns_eq,
    mergeSentimentsSpec, dedupF_eq_dedupFirst]
  rfl

/-- Witness for the amended C6 at the spec's dedup example. -/
theorem merge_sentiments_spec_nonlist_witness :
    merge_sentiment_columnsE (.str "happy, sad") [.str "sad, joy"] =
      .ok (mergeSentimentsSpec [.str "happy, sad", .str "sad, joy"]) :=
  merge_sentiments_spec_nonlist.1 (.str "happy, sad") [.str "sad, joy"] (by decide)

/-! ## String lemmas for the sentiment idempotence claim -/

lemma toList_append (a b : String) : (a ++ b).toList = a.toList ++ b.toList := by
  cases a; cases b; rfl

lemma mk_toList (s : String) : String.mk s.toList = s := by
  cases s; rfl

lemma toList_eq_nil_iff (s : String) : s.toList = [] ↔ s = "" := by
  constructor
  · intro h
    have h2 := congrArg String.mk h
    rwa [mk_toList] at h2
  · intro h
    rw [h]
    rfl

lemma dropWhile_dropWhile (p : Char → Bool) (l : List Char) :
    (l.dropWhile p).dropWhile p = l.dropWhile p := by
  induction l with
  | nil => rfl
  | cons c r ih =>
    by_cases h : p c
    · simp [List.dropWhile_cons, h, ih]
    · simp [List.dropWhile_cons, h]

lemma head_dropWhile_false (p : Char → Bool) (l : List Char) (c : Char)
    (h : (l.dropWhile p).head? = some c) : p c = false := by
  induction l with
  | nil => simp [List.dropWhile_nil] at h
  | cons d r ih =>
    by_cases hd : p d
    · rw [List.dropWhile_cons, if_pos hd] at h
      exact ih h
    · rw [List.dropWhile_cons, if_neg hd] at h
      have hdc : d = c := by simpa using h
      rw [← hdc]
      simpa using hd

lemma dropWhile_eq_self_of_head (p : Char → Bool) (l : List Char)
    (h : ∀ c, l.head? = some c → p c = false) : l.dropWhile p = l := by
  cases l with
  | nil => rfl
  | cons c r =>
    rw [List.dropWhile_cons, if_neg]
    simp [h c rfl]

lemma getLast?_dropWhile (p : Char → Bool) (l : List Char)
    (h : l.dropWhile p ≠ []) : (l.dropWhile p).getLast? = l.getLast? := by
  induction l with
  | nil => simp at h
  | cons c r ih =>
    by_cases hc : p c
    · rw [List.dropWhile_cons, if_pos hc] at h ⊢
      have hr : r ≠ [] := by
        intro he
        rw [he] at h
        simp at h
      rw [ih h]
      cases r with
      | nil => exact absurd rfl hr
      | cons d s2 => rw [List.getLast?_cons_cons]
    · rw [List.dropWhile_cons, if_neg hc]

/-- The front of a strip result is non-space (or the result is empty). -/
lemma pyStrip_head (cs : List Char) (c : Char)
    (h : (pyStrip cs).head? = some c) : isSpaceChar c = false := by
  unfold pyStrip at h
  rw [List.head?_reverse] at h
  have hne : (((cs.dropWhile isSpaceChar).reverse).dropWhile isSpaceChar) ≠ [] := by
    intro he
    rw [he] at h
    simp at h
  rw [getLast?_dropWhile _ _ hne, List.getLast?_reverse] at h
  exact head_dropWhile_false _ _ _ h

lemma pyStrip_idem (cs : List Char) : pyStrip (pyStrip cs) = pyStrip cs := by
  have hfront : (pyStrip cs).dropWhile isSpaceChar = pyStrip cs :=
    dropWhile_eq_self_of_head _ _ (pyStrip_head cs)
  show pyStrip (pyStrip cs) = pyStrip cs
  unfold pyStrip
  rw [show ((((cs.dropWhile isSpaceChar).reverse).dropWhile isSpaceChar).reverse).dropWhile
        isSpaceChar = (((cs.dropWhile isSpaceChar).reverse).dropWhile isSpaceChar).reverse
      from hfront]
  rw [List.reverse_reverse, dropWhile_dropWhile]

lemma pyStrip_cons_space (cs : List Char) : pyStrip (' ' :: cs) = pyStrip cs := by
  unfold pyStrip
  rw [List.dropWhile_cons, if_pos (by decide)]

lemma mem_of_mem_dropWhile (p : Char → Bool) (l : List Char) (c : Char)
    (h : c ∈ l.dropWhile p) : c ∈ l := by
  induction l with
  | nil => simp at h
  | cons d r ih =>
    by_cases hd : p d
    · rw [List.dropWhile_cons, if_pos hd] at h
      exact List.mem_cons_of_mem _ (ih h)
    · rw [List.dropWhile_cons, if_neg hd] at h
      exact h

lemma mem_pyStrip (cs : List Char) (c : Char) (h : c ∈ pyStrip cs) : c ∈ cs := by
  unfold pyStrip at h
  rw [List.mem_reverse] at h
  have h2 := mem_of_mem_dropWhile _ _ _ h
  rw [List.mem_reverse] at h2
  exact mem_of_mem_dropWhile _ _ _ h2

lemma pySplitComma_ne_nil (cs : List Char) : pySplitComma cs ≠ [] := by
  cases cs with
  | nil => simp [pySplitComma]
  | cons c rest =>
    rw [pySplitComma]
    by_cases h : c = ','
    · simp [h]
    · rw [if_neg h]
      cases hr : pySplitComma rest <;> simp

lemma mem_pySplitComma_not_comma (cs : List Char) :
    ∀ p ∈ pySplitComma cs, ',' ∉ p := by
  induction cs with
  | nil =>
    intro p hp
    simp [pySplitComma] at hp
    simp [hp]
  | cons c rest ih =>
    intro p hp
    rw [pySplitComma] at hp
    by_cases h : c = ','
    · rw [if_pos h] at hp
      rcases List.mem_cons.mp hp with rfl | hp2
      · simp
      · exact ih p hp2
    · rw [if_neg h] at hp
      cases hr : pySplitComma rest with
      | nil => exact absurd hr (pySplitComma_ne_nil rest)
      | cons p0 ps =>
        rw [hr] at hp
        rcases List.mem_cons.mp hp with rfl | hp2
        · intro hmem
          rcases List.mem_cons.mp hmem with he | hmem2
          · exact h he.symm
          · exact ih p0 (hr ▸ List.mem_cons_self _ _) hmem2
        · exact ih p (hr ▸ List.mem_cons_of_mem _ hp2)

lemma pySplitComma_append (a b : List Char) (h : ',' ∉ a) :
    pySplitComma (a ++ ',' :: b) = a :: pySplitComma b := by
  induction a with
  | nil => simp [pySplitComma]
  | cons c a2 ih =>
    have hc : c ≠ ',' := by
      intro he
      exact h (he ▸ List.mem_cons_self _ _)
    rw [List.cons_append, pySplitComma, if_neg hc,
      ih (fun hm => h (List.mem_cons_of_mem _ hm))]

lemma pySplitComma_no_comma (cs : List Char) (h : ',' ∉ cs) :
    pySplitComma cs = [cs] := by
  induction cs with
  | nil => rfl
  | cons c rest ih =>
    have hc : c ≠ ',' := by
      intro he
      exact h (he ▸ List.mem_cons_self _ _)
    rw [pySplitComma, if_neg hc, ih (fun hm => h (List.mem_cons_of_mem _ hm))]

/-- Character-level form of `", ".join`. -/
def joinCS : List (List Char) → List Char
  | [] => []
  | [x] => x
  | x :: y :: xs => x ++ ',' :: ' ' :: joinCS (y :: xs)

lemma pyJoin_toList (l : List String) :
    (pyJoin ", " l).toList = joinCS (l.map String.toList) := by
  induction l with
  | nil => rfl
  | cons x xs ih =>
    cases xs with
    | nil => rfl
    | cons y ys =>
      rw [pyJoin, List.map_cons, List.map_cons, joinCS, toList_append, toList_append, ih,
        List.map_cons]
      simp

lemma split_space_strip (cs : List Char) :
    (pySplitComma (' ' :: cs)).map pyStrip = (pySplitComma cs).map pyStrip := by
  cases h : pySplitComma cs with
  | nil => exact absurd h (pySplitComma_ne_nil cs)
  | cons p ps =>
    rw [pySplitComma, if_neg (by decide), h]
    simp [pyStrip_cons_space]

lemma split_strip_joinCS (l : List (List Char)) (hl : l ≠ [])
    (h : ∀ x ∈ l, ',' ∉ x ∧ pyStrip x = x) :
    (pySplitComma (joinCS l)).map pyStrip = l := by
  induction l with
  | nil => exact absurd rfl hl
  | cons x xs ih =>
    cases xs with
    | nil =>
      have hx := h x (List.mem_cons_self _ _)
      rw [show joinCS [x] = x from rfl, pySplitComma_no_comma x hx.1]
      simp [hx.2]
    | cons y ys =>
      have hx := h x (List.mem_cons_self _ _)
      rw [joinCS, pySplitComma_append x (' ' :: joinCS (y :: ys)) hx.1, List.map_cons, hx.2]
      congr 1
      rw [split_space_strip]
      exact ih (by simp) (fun z hz => h z (List.mem_cons_of_mem _ hz))

lemma split_strip_join (l : List String) (hl : l ≠ [])
    (h : ∀ x ∈ l, ',' ∉ x.toList ∧ pyStripS x = x) :
    (pySplitCommaS (pyJoin ", " l)).map pyStripS = l := by
  have hchar := split_strip_joinCS (l.map String.toList)
    (fun he => hl (by simpa using he))
    (by
      intro z hz
      rcases List.mem_map.mp hz with ⟨x, hx, rfl⟩
      refine ⟨(h x hx).1, ?_⟩
      exact congrArg String.toList (h x hx).2)
  unfold pySplitCommaS
  rw [pyJoin_toList, List.map_map]
  have h3 : (pyStripS ∘ fun cs => String.mk cs) = (fun cs => String.mk cs) ∘ pyStrip := rfl
  rw [h3, ← List.map_map, hchar, List.map_map]
  have h4 : ((fun cs => String.mk cs) ∘ String.toList) = id := funext mk_toList
  rw [h4, List.map_id]

/-! ## Facts about the deduplicated sentiment result -/

lemma dedupF_mem (items : List String) :
    ∀ seen x, x ∈ dedupF seen items → x ∈ items ∧ x ≠ "" ∧ x ≠ "neutral" ∧ x ∉ seen := by
  induction items with
  | nil => intro seen x hx; simp [dedupF] at hx
  | cons y ys ih =>
    intro seen x hx
    by_cases h : y ≠ "" ∧ y ≠ "neutral" ∧ y ∉ seen
    · rw [dedupF, if_pos h] at hx
      rcases List.mem_cons.mp hx with rfl | hx2
      · exact ⟨List.mem_cons_self _ _, h⟩
      · have h2 := ih _ x hx2
        refine ⟨List.mem_cons_of_mem _ h2.1, h2.2.1, h2.2.2.1, ?_⟩
        intro hs
        exact h2.2.2.2 (List.mem_cons_of_mem _ hs)
    · rw [dedupF, if_neg h] at hx
      have h2 := ih seen x hx
      exact ⟨List.mem_cons_of_mem _ h2.1, h2.2⟩

lemma dedupF_nodup (items : List String) : ∀ seen, (dedupF seen items).Nodup := by
  induction items with
  | nil => intro seen; simp [dedupF]
  | cons y ys ih =>
    intro seen
    by_cases h : y ≠ "" ∧ y ≠ "neutral" ∧ y ∉ seen
    · rw [dedupF, if_pos h, List.nodup_cons]
      refine ⟨?_, ih _⟩
      intro hmem
      exact (dedupF_mem ys _ y hmem).2.2.2 (List.mem_cons_self _ _)
    · rw [dedupF, if_neg h]
      exact ih seen

lemma dedupF_id (items : List String) :
    ∀ seen, items.Nodup → (∀ x ∈ items, x ≠ "" ∧ x ≠ "neutral" ∧ x ∉ seen) →
      dedupF seen items = items := by
  induction items with
  | nil => intro seen _ _; rfl
  | cons y ys ih =>
    intro seen hnd h
    rw [dedupF, if_pos (h y (List.mem_cons_self _ _))]
    rw [List.nodup_cons] at hnd
    congr 1
    apply ih _ hnd.2
    intro x hx
    have hx2 := h x (List.mem_cons_of_mem _ hx)
    refine ⟨hx2.1, hx2.2.1, ?_⟩
    intro hmem
    rcases List.mem_cons.mp hmem with rfl | hs
    · exact hnd.1 hx
    · exact hx2.2.2 hs

lemma piecesOf_shape (vals : List PyVal) :
    ∀ x ∈ piecesOf vals, pyStripS x = x ∧ ',' ∉ x.toList := by
  intro x hx
  unfold piecesOf at hx
  rcases List.mem_flatMap.mp hx with ⟨v, hv, hxv⟩
  unfold sentPieces at hxv
  rcases List.mem_map.mp hxv with ⟨y, hy, rfl⟩
  constructor
  · show pyStripS (pyStripS y) = pyStripS y
    have h1 : pyStripS (pyStripS y) = String.mk (pyStrip (pyStrip y.toList)) := rfl
    rw [h1, pyStrip_idem]
    rfl
  · intro hc
    have hc2 : ',' ∈ pyStrip y.toList := hc
    have hc3 := mem_pyStrip _ _ hc2
    rcases List.mem_map.mp hy with ⟨p, hp, rfl⟩
    exact mem_pySplitComma_not_comma _ p hp hc3

lemma pyJoin_ne_empty (x : String) (xs : List String) (hx : x ≠ "") :
    pyJoin ", " (x :: xs) ≠ "" := by
  cases xs with
  | nil => exact hx
  | cons y ys =>
    rw [pyJoin]
    intro h
    have h2 := congrArg String.toList h
    rw [toList_append, toList_append] at h2
    have h3 : (", " : String).toList = [',', ' '] := rfl
    rw [h3] at h2
    simp at h2

lemma pyJoin_ne_neutral (x : String) (xs : List String) (hx : x ≠ "neutral") :
    pyJoin ", " (x :: xs) ≠ "neutral" := by
  cases xs with
  | nil => exact hx
  | cons y ys =>
    rw [pyJoin]
    intro h
    have h2 := congrArg String.toList h
    rw [toList_append, toList_append] at h2
    have hc : ',' ∈ ("neutral" : String).toList := by
      rw [← h2]
      refine List.mem_append.mpr (Or.inl (List.mem_append.mpr (Or.inr ?_)))
      decide
    exact absurd hc (by decide)

/-- Claim C10: `merge_sentiment_columns` is idempotent on its own output:
feeding the produced string back in as the only value reproduces it. -/
theorem merge_sentiments_idempotent (main_val : PyVal) (other_vals : List PyVal) :
    merge_sentiment_columns (.str (merge_sentiment_columns main_val other_vals)) [] =
      merge_sentiment_columns main_val other_vals := by
  rw [merge_sentiment_columns_eq main_val other_vals]
  have hmem : ∀ x ∈ dedupF [] (piecesOf (main_val :: other_vals)),
      x ≠ "" ∧ x ≠ "neutral" ∧ pyStripS x = x ∧ ',' ∉ x.toList := by
    intro x hx
    have h1 := dedupF_mem _ _ _ hx
    have h2 := piecesOf_shape _ x h1.1
    exact ⟨h1.2.1, h1.2.2.1, h2.1, h2.2⟩
  have hnd : (dedupF [] (piecesOf (main_val :: other_vals))).Nodup := dedupF_nodup _ _
  cases hcase : dedupF [] (piecesOf (main_val :: other_vals)) with
  | nil => rfl
  | cons x xs =>
    have hmem2 : ∀ z ∈ x :: xs, z ≠ "" ∧ z ≠ "neutral" ∧ pyStripS z = z ∧ ',' ∉ z.toList :=
      hcase ▸ hmem
    have hnd2 : (x :: xs).Nodup := hcase ▸ hnd
    have hne : pyJoin ", " (x :: xs) ≠ "" :=
      pyJoin_ne_empty x xs (hmem2 x (List.mem_cons_self _ _)).1
    have hneu : pyJoin ", " (x :: xs) ≠ "neutral" :=
      pyJoin_ne_neutral x xs (hmem2 x (List.mem_cons_self _ _)).2.1
    rw [merge_sentiment_columns_eq]
    have hskip : sentSkip (.str (pyJoin ", " (x :: xs))) = false := by
      simp [sentSkip, isnaScalar, pyEq, hne, hneu]
    have hpieces : piecesOf [.str (pyJoin ", " (x :: xs))] = x :: xs := by
      unfold piecesOf
      rw [List.filter_cons, if_pos (by rw [hskip]; rfl)]
      simp only [List.filter_nil, List.flatMap_cons, List.flatMap_nil, List.append_nil]
      unfold sentPieces
      have hps : pyStr (.str (pyJoin ", " (x :: xs))) = pyJoin ", " (x :: xs) := rfl
      rw [hps]
      exact split_strip_join (x :: xs) (by simp)
        (fun z hz => ⟨(hmem2 z hz).2.2.2, (hmem2 z hz).2.2.1⟩)
    rw [hpieces,
      dedupF_id (x :: xs) [] hnd2
        (fun z hz => ⟨(hmem2 z hz).1, (hmem2 z hz).2.1, List.not_mem_nil _⟩)]

/-! ## Claims about the row orchestration loop -/

lemma runMergeGo_length (main_df s1 s2 : List Row) :
    ∀ idx, (runMergeGo main_df s1 s2 idx).length = main_df.length := by
  induction main_df with
  | nil => intro idx; rfl
  | cons r rest ih =>
    intro idx
    simp [runMergeGo, ih]

lemma runMergeGo_getElem? (main_df s1 s2 : List Row) :
    ∀ idx k row, main_df[k]? = some row →
      (runMergeGo main_df s1 s2 idx)[k]? =
        some (processRow row s1[idx + k]? s2[idx + k]?) := by
  induction main_df with
  | nil => intro idx k row h; simp at h
  | cons r rest ih =>
    intro idx k row h
    cases k with
    | zero =>
      simp at h
      subst h
      simp [runMergeGo]
    | succ k2 =>
      simp only [List.getElem?_cons_succ] at h
      rw [runMergeGo]
      rw [List.getElem?_cons_succ]
      have harith : idx + (k2 + 1) = (idx + 1) + k2 := by omega
      rw [harith]
      exact ih (idx + 1) k2 row h

lemma processRow_frame (row0 : Row) (s1 s2 : Option Row) (c : String)
    (h1 : c ≠ "people") (h2 : c ≠ "places") (h3 : c ≠ "sentiments") (h4 : c ≠ "objects") :
    processRow row0 s1 s2 c = row0 c := by
  simp [processRow, rset, h1, h2, h3, h4]

/-- Claim C9: the orchestration loop keeps the set and order of rows of
the primary table, each output row is the processed input row of the same
index, and processing replaces only the four fields "people", "places",
"sentiments", "objects" — every other column is unchanged. -/
theorem run_merge_frame (main_df s1 s2 : List Row) :
    (runMerge main_df s1 s2).length = main_df.length ∧
    ∀ (idx : Nat) (row : Row), main_df[idx]? = some row →
      (runMerge main_df s1 s2)[idx]? =
        some (processRow row s1[idx]? s2[idx]?) ∧
      ∀ c, c ≠ "people" → c ≠ "places" → c ≠ "sentiments" → c ≠ "objects" →
        processRow row s1[idx]? s2[idx]? c = row c := by
  refine ⟨runMergeGo_length main_df s1 s2 0, ?_⟩
  intro idx row h
  refine ⟨?_, fun c h1 h2 h3 h4 => processRow_frame row _ _ c h1 h2 h3 h4⟩
  have hg := runMergeGo_getElem? main_df s1 s2 0 idx row h
  simpa using hg

/-- Concrete one-row table used only to witness claim C9. -/
def wRow : Row := fun c =>
  if c = "people" then some (.str "['Alice']")
  else if c = "title" then some (.str "t")
  else none

/-- Witness for C9 at a concrete one-row table: the passthrough column
"title" is unchanged. -/
theorem run_merge_frame_witness :
    ("title" : String) ≠ "people" ∧
    processRow wRow none none "title" = wRow "title" := by
  refine ⟨by decide, ?_⟩
  have h := (run_merge_frame [wRow] [] []).2 0 wRow rfl
  exact h.2 "title" (by decide) (by decide) (by decide) (by decide)

